import Mathlib

/-!
Verification of the credential marshalling layer of
win32ctypes/pywin32/win32cred.py (pywin32-ctypes).

The layer is embedded shallowly:

* a Python credential dict is a list of string-keyed entries (Python dicts
  have unique keys; every operation here reads the dict through lookup);
* the native CREDENTIAL record of win32ctypes.core is modelled from the
  spec (its declaration is outside this file's source tree): each text
  field holds the text written into it, the blob is a byte buffer plus an
  explicit size field;
* text is a list of Unicode code points; UTF-16LE encoding is explicit;
* the external collaborators (the native CredWrite/CredRead/CredDelete/
  CredEnumerate/CredFree primitives and the active-code-page decoder used
  by make_blob) are parameters of the operations, and each operation
  returns, next to its result, a trace of how often the native primitive
  and CredFree were invoked, so that claims about call ordering and
  release discipline are statable.
-/

/-- Value stored under one key of a Python credential dict: an integer tag,
a text value (list of Unicode code points), or a raw byte string. -/
inductive CredValue where
  | int (n : Int)
  | str (s : List Nat)
  | bytes (b : List Nat)
deriving DecidableEq, Repr

/-- A Python dict keyed by strings, as used by CredWrite and produced by
decoding: an association list (real dicts have unique keys). -/
abbrev Cred : Type := List (String × CredValue)

/-- Python dict lookup (first matching key). -/
def credLookup : Cred → String → Option CredValue
  | [], _ => none
  | (k, v) :: rest, key => if k = key then some v else credLookup rest key

/-- Python dict keys, in insertion order. -/
def credKeys (cred : Cred) : List String :=
  cred.map Prod.fst

/-- win32cred.CRED_TYPE_GENERIC. -/
def CRED_TYPE_GENERIC : Int := 0x1

/-- win32cred.CRED_PERSIST_ENTERPRISE. -/
def CRED_PERSIST_ENTERPRISE : Int := 0x3

/-- Modelled from the spec: win32ctypes.core._advapi32.SUPPORTED_CREDKEYS,
the recognized credential keys (the _advapi32 module is outside the given
source tree; the spec lists exactly these six keys). -/
def SUPPORTED_CREDKEYS : List String :=
  ["Type", "TargetName", "Persist", "UserName", "CredentialBlob", "Comment"]

/-- UTF-16 code units of one Unicode code point: one unit below 0x10000,
a surrogate pair above. -/
def utf16Units (cp : Nat) : List Nat :=
  if cp < 0x10000 then [cp]
  else [0xD800 + (cp - 0x10000) / 0x400, 0xDC00 + (cp - 0x10000) % 0x400]

/-- UTF-16 code units of a text. -/
def utf16CodeUnits : List Nat → List Nat
  | [] => []
  | cp :: rest => utf16Units cp ++ utf16CodeUnits rest

/-- Little-endian byte serialization of a list of 16-bit code units. -/
def unitsToBytes : List Nat → List Nat
  | [] => []
  | u :: us => u % 256 :: u / 256 % 256 :: unitsToBytes us

/-- UTF-16LE encoding of a text, without any terminator. -/
def utf16leBytes (s : List Nat) : List Nat :=
  unitsToBytes (utf16CodeUnits s)

/-- Errors the layer can raise: ValueError for an unsupported key set
(carrying the offending keys), ValueError for a nonzero flag, ValueError
for a non-generic Type on read/delete, the pywin32error translation of a
failed native call (carrying the Windows error code), TypeError from
ctypes on an ill-typed field value, and UnicodeDecodeError from the
strict active-code-page decode in make_blob. -/
inductive PyErr where
  | unsupportedKeysError (keys : List String)
  | flagNotSupported
  | typeNotSupported
  | pywin32Error (code : Nat)
  | ctypesTypeError
  | unicodeDecodeError
deriving DecidableEq, Repr

/-- Modelled from the spec: the native CREDENTIAL record of
win32ctypes.core._advapi32 (declared outside the given source tree), kept
to the fields this layer reads and writes. Text fields hold their text;
CredentialBlob holds the bytes at the blob pointer and CredentialBlobSize
the declared byte count. -/
structure CREDENTIAL where
  «Type» : Int
  TargetName : List Nat
  Persist : Int
  UserName : List Nat
  Comment : List Nat
  CredentialBlobSize : Nat
  CredentialBlob : List Nat
deriving DecidableEq, Repr

/-- The zero-initialized record: _advapi32.CREDENTIAL() is allocated
zeroed and CredWrite additionally runs ctypes.memset with fill byte
flag, which is 0 on every path that reaches it. -/
def zeroCred : CREDENTIAL :=
  { «Type» := 0, TargetName := [], Persist := 0, UserName := [],
    Comment := [], CredentialBlobSize := 0, CredentialBlob := [] }

/-- win32cred._make_blob: a text password is used as is; a byte password
is decoded with the active code page (GetACP), errors strict, so a decode
failure raises; any other value makes the unicode constructor raise
TypeError. acp is the external code-page decoder. -/
def make_blob (acp : List Nat → Option (List Nat)) :
    CredValue → Except PyErr (List Nat)
  | .str s => .ok s
  | .bytes b =>
    match acp b with
    | some s => .ok s
    | none => .error .unicodeDecodeError
  | .int _ => .error .ctypesTypeError

/-- ctypes setattr on the CREDENTIAL record for one non-blob key: stores
the value in the field of that name, raising TypeError when the value
does not fit the field's ctypes type. -/
def setField (c : CREDENTIAL) (key : String) (v : CredValue) :
    Except PyErr CREDENTIAL :=
  if key = "Type" then
    match v with
    | .int n => .ok { c with «Type» := n }
    | _ => .error .ctypesTypeError
  else if key = "TargetName" then
    match v with
    | .str s => .ok { c with TargetName := s }
    | _ => .error .ctypesTypeError
  else if key = "Persist" then
    match v with
    | .int n => .ok { c with Persist := n }
    | _ => .error .ctypesTypeError
  else if key = "UserName" then
    match v with
    | .str s => .ok { c with UserName := s }
    | _ => .error .ctypesTypeError
  else if key = "Comment" then
    match v with
    | .str s => .ok { c with Comment := s }
    | _ => .error .ctypesTypeError
  else
    .error .ctypesTypeError

/-- The CredentialBlob branch of CredWrite's loop:
create_unicode_buffer(blob) yields the UTF-16 code units of blob plus a
trailing NUL unit; CredentialBlobSize is sizeof(buffer) minus
sizeof(c_wchar), and CredentialBlob points at the buffer's bytes. -/
def setBlob (c : CREDENTIAL) (blob : List Nat) : CREDENTIAL :=
  let blob_data := unitsToBytes (utf16CodeUnits blob ++ [0])
  { c with CredentialBlobSize := blob_data.length - 2,
           CredentialBlob := blob_data }

/-- The field-encoding loop of CredWrite: for each supported key present
in the credential, set the record field; CredentialBlob goes through
make_blob and the unicode-buffer construction. -/
def encodeFields (acp : List Nat → Option (List Nat)) :
    List String → Cred → CREDENTIAL → Except PyErr CREDENTIAL
  | [], _, c => .ok c
  | key :: keys, credential, c =>
    match credLookup credential key with
    | none => encodeFields acp keys credential c
    | some v =>
      if key = "CredentialBlob" then
        match make_blob acp v with
        | .error e => .error e
        | .ok blob => encodeFields acp keys credential (setBlob c blob)
      else
        match setField c key v with
        | .error e => .error e
        | .ok c2 => encodeFields acp keys credential c2

/-- Value of one recognized field as read back from the record:
getattr for the plain fields, and for CredentialBlob the
CredentialBlobSize bytes copied from the blob pointer. -/
def fieldVal (c : CREDENTIAL) (key : String) : CredValue :=
  if key = "Type" then .int c.«Type»
  else if key = "TargetName" then .str c.TargetName
  else if key = "Persist" then .int c.Persist
  else if key = "UserName" then .str c.UserName
  else if key = "Comment" then .str c.Comment
  else if key = "CredentialBlob" then
    .bytes (c.CredentialBlob.take c.CredentialBlobSize)
  else .int 0

/-- win32cred._cred_as_dict: build a dict with every supported key; the
blob entry is the raw bytes read from the blob pointer, exactly
CredentialBlobSize of them. -/
def cred_as_dict (c : CREDENTIAL) : Cred :=
  SUPPORTED_CREDKEYS.map (fun key => (key, fieldVal c key))

/-- The keys of the credential that are outside SUPPORTED_CREDKEYS
(Python: set(credential.keys()) - SUPPORTED_CREDKEYS; dict keys are
unique, so the list below has the same members). -/
def unsupportedOf (cred : Cred) : List String :=
  (credKeys cred).filter (fun k => !SUPPORTED_CREDKEYS.contains k)

deriving instance DecidableEq for Except

/-- Outcome of CredWrite: the Python result or exception, plus the list
of records passed to the native _CredWrite primitive, in call order. -/
structure WriteResult where
  result : Except PyErr Unit
  written : List CREDENTIAL
deriving DecidableEq, Repr

/-- win32cred.CredWrite. nativeWrite is the external _CredWrite
primitive (returning a Windows error code on failure); acp the external
code-page decoder used by make_blob. -/
def CredWrite (acp : List Nat → Option (List Nat))
    (nativeWrite : CREDENTIAL → Except Nat Unit)
    (credential : Cred) (flag : Int) : WriteResult :=
  if unsupportedOf credential ≠ [] then
    { result := .error (.unsupportedKeysError (unsupportedOf credential)),
      written := [] }
  else if flag ≠ 0 then
    { result := .error .flagNotSupported, written := [] }
  else
    match encodeFields acp SUPPORTED_CREDKEYS credential zeroCred with
    | .error e => { result := .error e, written := [] }
    | .ok c_creds =>
      match nativeWrite c_creds with
      | .ok _ => { result := .ok (), written := [c_creds] }
      | .error code =>
        { result := .error (.pywin32Error code), written := [c_creds] }

/-- Outcome of an operation that may call one native primitive and
CredFree: the result or exception, how often the native primitive ran,
and how often _CredFree ran. -/
structure OpResult (α : Type) where
  result : Except PyErr α
  nativeCalls : Nat
  frees : Nat
deriving DecidableEq, Repr

/-- Python try/return/finally where the finally clause only calls
_CredFree (which does not itself fail): the body's value or exception
propagates unchanged and the frees always happen. -/
def tryFinallyFree {α : Type} (body : Except PyErr α) (frees : Nat) :
    Except PyErr α × Nat :=
  (body, frees)

/-- win32cred.CredRead, parametrized by the decoder applied to the native
record (the real one is cred_as_dict, which as Python code may raise).
nativeRead stands for the external _CredRead primitive's outcome. -/
def CredReadWith (TargetName : List Nat) (ty : Int)
    (nativeRead : Except Nat CREDENTIAL)
    (dec : CREDENTIAL → Except PyErr Cred) : OpResult Cred :=
  if ¬ ty = CRED_TYPE_GENERIC then
    { result := .error .typeNotSupported, nativeCalls := 0, frees := 0 }
  else
    match nativeRead with
    | .error code =>
      { result := .error (.pywin32Error code), nativeCalls := 1, frees := 0 }
    | .ok rec =>
      let out := tryFinallyFree (dec rec) 1
      { result := out.1, nativeCalls := 1, frees := out.2 }

/-- win32cred.CredRead with the real decoder cred_as_dict. -/
def CredRead (TargetName : List Nat) (ty : Int)
    (nativeRead : Except Nat CREDENTIAL) : OpResult Cred :=
  CredReadWith TargetName ty nativeRead (fun rec => .ok (cred_as_dict rec))

/-- win32cred.CredDelete. nativeDelete stands for the external
_CredDelete primitive's outcome. -/
def CredDelete (TargetName : List Nat) (ty : Int)
    (nativeDelete : Except Nat Unit) : OpResult Unit :=
  if ¬ ty = CRED_TYPE_GENERIC then
    { result := .error .typeNotSupported, nativeCalls := 0, frees := 0 }
  else
    match nativeDelete with
    | .ok _ => { result := .ok (), nativeCalls := 1, frees := 0 }
    | .error code =>
      { result := .error (.pywin32Error code), nativeCalls := 1, frees := 0 }

/-- The list comprehension of CredEnumerate: decode each record of the
native array in order, stopping at the first decoder exception. -/
def decodeList (dec : CREDENTIAL → Except PyErr Cred) :
    List CREDENTIAL → Except PyErr (List Cred)
  | [] => .ok []
  | r :: rs =>
    match dec r with
    | .error e => .error e
    | .ok c =>
      match decodeList dec rs with
      | .error e => .error e
      | .ok cs => .ok (c :: cs)

/-- The is_generic lambda of CredEnumerate. -/
def is_generic (cred : Cred) : Bool :=
  decide (credLookup cred "Type" = some (.int CRED_TYPE_GENERIC))

/-- win32cred.CredEnumerate parametrized by the per-record decoder (the
real one is cred_as_dict). nativeEnumerate stands for the external
_CredEnumerate primitive's outcome: the array of records it returned, or
a Windows error code. -/
def CredEnumerateWith (Filter : Option (List Nat)) (Flags : Int)
    (nativeEnumerate : Except Nat (List CREDENTIAL))
    (dec : CREDENTIAL → Except PyErr Cred) : OpResult (List Cred) :=
  match nativeEnumerate with
  | .error code =>
    { result := .error (.pywin32Error code), nativeCalls := 1, frees := 0 }
  | .ok arr =>
    let out := tryFinallyFree (decodeList dec arr) 1
    match out.1 with
    | .error e => { result := .error e, nativeCalls := 1, frees := out.2 }
    | .ok creds =>
      { result := .ok (creds.filter is_generic),
        nativeCalls := 1, frees := out.2 }

/-- win32cred.CredEnumerate with the real decoder cred_as_dict. -/
def CredEnumerate (Filter : Option (List Nat)) (Flags : Int)
    (nativeEnumerate : Except Nat (List CREDENTIAL)) : OpResult (List Cred) :=
  CredEnumerateWith Filter Flags nativeEnumerate
    (fun rec => .ok (cred_as_dict rec))

/-- Well-shaped write input for the round-trip property: every entry sits
under a recognized key and has the value kind its field expects, with the
secret given as text. -/
def valShape (key : String) (v : CredValue) : Bool :=
  if key = "Type" then (match v with | .int _ => true | _ => false)
  else if key = "TargetName" then (match v with | .str _ => true | _ => false)
  else if key = "Persist" then (match v with | .int _ => true | _ => false)
  else if key = "UserName" then (match v with | .str _ => true | _ => false)
  else if key = "Comment" then (match v with | .str _ => true | _ => false)
  else if key = "CredentialBlob" then
    (match v with | .str _ => true | _ => false)
  else false

/-- What decoding gives back for a field written from value v: the value
itself, except that a text secret reappears as its UTF-16LE bytes. -/
def roundTripVal (key : String) (v : CredValue) : CredValue :=
  if key = "CredentialBlob" then
    match v with
    | .str s => .bytes (utf16leBytes s)
    | _ => v
  else v

/-! Helper lemmas about the encoding primitives. -/

theorem unitsToBytes_append (xs ys : List Nat) :
    unitsToBytes (xs ++ ys) = unitsToBytes xs ++ unitsToBytes ys := by
  induction xs with
  | nil => rfl
  | cons u us ih => simp [unitsToBytes, ih]

theorem unitsToBytes_length (xs : List Nat) :
    (unitsToBytes xs).length = 2 * xs.length := by
  induction xs with
  | nil => rfl
  | cons u us ih =>
    simp [unitsToBytes, ih]
    ring

theorem utf16CodeUnits_length_bmp (s : List Nat)
    (h : ∀ cp ∈ s, cp < 0x10000) :
    (utf16CodeUnits s).length = s.length := by
  induction s with
  | nil => rfl
  | cons cp rest ih =>
    have hcp : cp < 0x10000 := h cp (by simp)
    have hrest : ∀ x ∈ rest, x < 0x10000 := fun x hx => h x (by simp [hx])
    simp [utf16CodeUnits, utf16Units, hcp, ih hrest]

theorem setBlob_blob (c : CREDENTIAL) (s : List Nat) :
    (setBlob c s).CredentialBlob = utf16leBytes s ++ [0, 0] := by
  simp [setBlob, utf16leBytes, unitsToBytes_append, unitsToBytes]

theorem setBlob_blobSize (c : CREDENTIAL) (s : List Nat) :
    (setBlob c s).CredentialBlobSize = (utf16leBytes s).length := by
  simp [setBlob, utf16leBytes, unitsToBytes_append, unitsToBytes]

theorem setBlob_take (c : CREDENTIAL) (s : List Nat) :
    (setBlob c s).CredentialBlob.take (setBlob c s).CredentialBlobSize
      = utf16leBytes s := by
  rw [setBlob_blob, setBlob_blobSize]
  exact List.take_left _ _

/-! Helper lemmas about single field updates. -/

theorem fieldVal_setField_ne {c c2 : CREDENTIAL} {key : String}
    {v : CredValue} (h : setField c key v = .ok c2) (k : String)
    (hne : k ≠ key) : fieldVal c2 k = fieldVal c k := by
  unfold setField at h
  split_ifs at h with h1 h2 h3 h4 h5
  · subst h1
    cases v with
    | int n =>
      simp only [Except.ok.injEq] at h
      subst h
      simp [fieldVal, hne]
    | str s => simp at h
    | bytes b => simp at h
  · subst h2
    cases v with
    | str s =>
      simp only [Except.ok.injEq] at h
      subst h
      simp [fieldVal, hne]
    | int n => simp at h
    | bytes b => simp at h
  · subst h3
    cases v with
    | int n =>
      simp only [Except.ok.injEq] at h
      subst h
      simp [fieldVal, hne]
    | str s => simp at h
    | bytes b => simp at h
  · subst h4
    cases v with
    | str s =>
      simp only [Except.ok.injEq] at h
      subst h
      simp [fieldVal, hne]
    | int n => simp at h
    | bytes b => simp at h
  · subst h5
    cases v with
    | str s =>
      simp only [Except.ok.injEq] at h
      subst h
      simp [fieldVal, hne]
    | int n => simp at h
    | bytes b => simp at h

theorem fieldVal_setField_self {c c2 : CREDENTIAL} {key : String}
    {v : CredValue} (h : setField c key v = .ok c2) :
    fieldVal c2 key = v := by
  unfold setField at h
  split_ifs at h with h1 h2 h3 h4 h5
  · subst h1
    cases v with
    | int n =>
      simp only [Except.ok.injEq] at h
      subst h
      simp [fieldVal]
    | str s => simp at h
    | bytes b => simp at h
  · subst h2
    cases v with
    | str s =>
      simp only [Except.ok.injEq] at h
      subst h
      simp [fieldVal]
    | int n => simp at h
    | bytes b => simp at h
  · subst h3
    cases v with
    | int n =>
      simp only [Except.ok.injEq] at h
      subst h
      simp [fieldVal, h1]
    | str s => simp at h
    | bytes b => simp at h
  · subst h4
    cases v with
    | str s =>
      simp only [Except.ok.injEq] at h
      subst h
      simp [fieldVal, h1, h2, h3]
    | int n => simp at h
    | bytes b => simp at h
  · subst h5
    cases v with
    | str s =>
      simp only [Except.ok.injEq] at h
      subst h
      simp [fieldVal, h1, h2, h3, h4]
    | int n => simp at h
    | bytes b => simp at h

theorem fieldVal_setBlob_ne (c : CREDENTIAL) (b : List Nat) (k : String)
    (h : k ≠ "CredentialBlob") :
    fieldVal (setBlob c b) k = fieldVal c k := by
  simp [fieldVal, setBlob, h]

theorem fieldVal_setBlob_self (c : CREDENTIAL) (b : List Nat) :
    fieldVal (setBlob c b) "CredentialBlob" = .bytes (utf16leBytes b) := by
  have hch : fieldVal (setBlob c b) "CredentialBlob"
      = .bytes ((setBlob c b).CredentialBlob.take
          (setBlob c b).CredentialBlobSize) := by
    simp [fieldVal]
  rw [hch, setBlob_take]

theorem setField_ok_of_valShape {key : String} {v : CredValue}
    (hv : valShape key v = true) (hb : key ≠ "CredentialBlob")
    (c : CREDENTIAL) : ∃ c2, setField c key v = .ok c2 := by
  unfold valShape at hv
  split_ifs at hv with h1 h2 h3 h4 h5
  · subst h1
    cases v with
    | int n => exact ⟨{ c with «Type» := n }, by simp [setField]⟩
    | str s => simp at hv
    | bytes b => simp at hv
  · subst h2
    cases v with
    | str s => exact ⟨{ c with TargetName := s }, by simp [setField, h1]⟩
    | int n => simp at hv
    | bytes b => simp at hv
  · subst h3
    cases v with
    | int n => exact ⟨{ c with Persist := n }, by simp [setField, h1, h2]⟩
    | str s => simp at hv
    | bytes b => simp at hv
  · subst h4
    cases v with
    | str s =>
      exact ⟨{ c with UserName := s }, by simp [setField, h1, h2, h3]⟩
    | int n => simp at hv
    | bytes b => simp at hv
  · subst h5
    cases v with
    | str s =>
      exact ⟨{ c with Comment := s }, by simp [setField, h1, h2, h3, h4]⟩
    | int n => simp at hv
    | bytes b => simp at hv

/-! Helper lemmas about the field-encoding loop. -/

theorem encodeFields_preserve (acp : List Nat → Option (List Nat))
    (cred : Cred) :
    ∀ (keys : List String) (c r : CREDENTIAL),
      encodeFields acp keys cred c = .ok r →
      ∀ k : String, (credLookup cred k = none ∨ k ∉ keys) →
      fieldVal r k = fieldVal c k := by
  intro keys
  induction keys with
  | nil =>
    intro c r h k _
    simp only [encodeFields, Except.ok.injEq] at h
    rw [h]
  | cons key rest ih =>
    intro c r h k hk
    have hk2 : credLookup cred k = none ∨ k ∉ rest := by
      rcases hk with hk | hk
      · exact .inl hk
      · exact .inr fun hmem => hk (List.mem_cons_of_mem key hmem)
    cases hl : credLookup cred key with
    | none =>
      simp only [encodeFields, hl] at h
      exact ih c r h k hk2
    | some v =>
      have hne : k ≠ key := by
        rcases hk with hk' | hk'
        · intro he
          rw [he, hl] at hk'
          cases hk'
        · intro he
          exact hk' (he ▸ List.mem_cons_self key rest)
      simp only [encodeFields, hl] at h
      by_cases hb : key = "CredentialBlob"
      · rw [if_pos hb] at h
        cases hm : make_blob acp v with
        | error e => rw [hm] at h; cases h
        | ok blob =>
          rw [hm] at h
          have hstep : fieldVal (setBlob c blob) k = fieldVal c k :=
            fieldVal_setBlob_ne c blob k (hb ▸ hne)
          rw [ih _ r h k hk2, hstep]
      · rw [if_neg hb] at h
        cases hs : setField c key v with
        | error e => rw [hs] at h; cases h
        | ok c2 =>
          rw [hs] at h
          rw [ih _ r h k hk2, fieldVal_setField_ne hs k hne]

theorem encodeFields_sets (acp : List Nat → Option (List Nat))
    (cred : Cred) :
    ∀ (keys : List String) (c r : CREDENTIAL),
      encodeFields acp keys cred c = .ok r → keys.Nodup →
      ∀ k ∈ keys, ∀ v, credLookup cred k = some v →
        (k = "CredentialBlob" →
          ∃ s, make_blob acp v = .ok s ∧
            fieldVal r k = .bytes (utf16leBytes s)) ∧
        (k ≠ "CredentialBlob" → fieldVal r k = v) := by
  intro keys
  induction keys with
  | nil =>
    intro c r _ _ k hk
    cases hk
  | cons key rest ih =>
    intro c r h hnd k hk v hv
    have hnd2 : rest.Nodup := (List.nodup_cons.mp hnd).2
    rcases List.mem_cons.mp hk with rfl | hkrest
    · -- the key under scrutiny is processed now, then preserved
      have hnotin : k ∉ rest := (List.nodup_cons.mp hnd).1
      simp only [encodeFields, hv] at h
      by_cases hb : k = "CredentialBlob"
      · rw [if_pos hb] at h
        cases hm : make_blob acp v with
        | error e => rw [hm] at h; cases h
        | ok blob =>
          rw [hm] at h
          refine ⟨fun _ => ⟨blob, rfl, ?_⟩, fun hne => absurd hb hne⟩
          have hpres :=
            encodeFields_preserve acp cred rest _ r h k (.inr hnotin)
          rw [hpres, hb, fieldVal_setBlob_self]
      · rw [if_neg hb] at h
        cases hs : setField c k v with
        | error e => rw [hs] at h; cases h
        | ok c2 =>
          rw [hs] at h
          refine ⟨fun habs => absurd habs hb, fun _ => ?_⟩
          have hpres :=
            encodeFields_preserve acp cred rest _ r h k (.inr hnotin)
          rw [hpres, fieldVal_setField_self hs]
    · -- the key under scrutiny is processed later in the loop
      cases hl : credLookup cred key with
      | none =>
        simp only [encodeFields, hl] at h
        exact ih c r h hnd2 k hkrest v hv
      | some w =>
        simp only [encodeFields, hl] at h
        by_cases hb : key = "CredentialBlob"
        · rw [if_pos hb] at h
          cases hm : make_blob acp w with
          | error e => rw [hm] at h; cases h
          | ok blob =>
            rw [hm] at h
            exact ih _ r h hnd2 k hkrest v hv
        · rw [if_neg hb] at h
          cases hs : setField c key w with
          | error e => rw [hs] at h; cases h
          | ok c2 =>
            rw [hs] at h
            exact ih _ r h hnd2 k hkrest v hv

theorem encodeFields_ok (acp : List Nat → Option (List Nat)) (cred : Cred)
    (hsh : ∀ k v, credLookup cred k = some v → valShape k v = true) :
    ∀ (keys : List String) (c : CREDENTIAL),
      ∃ r, encodeFields acp keys cred c = .ok r := by
  intro keys
  induction keys with
  | nil => exact fun c => ⟨c, rfl⟩
  | cons key rest ih =>
    intro c
    cases hl : credLookup cred key with
    | none =>
      obtain ⟨r, hr⟩ := ih c
      exact ⟨r, by simp only [encodeFields, hl]; exact hr⟩
    | some v =>
      have hv := hsh key v hl
      by_cases hb : key = "CredentialBlob"
      · subst hb
        cases v with
        | str s =>
          obtain ⟨r, hr⟩ := ih (setBlob c s)
          refine ⟨r, ?_⟩
          simp only [encodeFields, hl, if_pos, make_blob]
          exact hr
        | int n => simp [valShape] at hv
        | bytes b => simp [valShape] at hv
      · obtain ⟨c2, hc2⟩ := setField_ok_of_valShape hv hb c
        obtain ⟨r, hr⟩ := ih c2
        refine ⟨r, ?_⟩
        simp only [encodeFields, hl, if_neg hb, hc2]
        exact hr

theorem credLookup_cred_as_dict (c : CREDENTIAL) (k : String)
    (hk : k ∈ SUPPORTED_CREDKEYS) :
    credLookup (cred_as_dict c) k = some (fieldVal c k) := by
  simp only [SUPPORTED_CREDKEYS, List.mem_cons, List.not_mem_nil,
    or_false] at hk
  rcases hk with rfl | rfl | rfl | rfl | rfl | rfl <;>
    simp [cred_as_dict, SUPPORTED_CREDKEYS, credLookup]

/-! Lemmas connecting dict lookup, decoding and filtering. -/

theorem credLookup_mem {cred : Cred} {k : String} {v : CredValue}
    (h : credLookup cred k = some v) : (k, v) ∈ cred := by
  induction cred with
  | nil => cases h
  | cons kv rest ih =>
    obtain ⟨k0, v0⟩ := kv
    by_cases he : k0 = k
    · subst he
      simp [credLookup] at h
      subst h
      exact List.mem_cons_self _ _
    · simp only [credLookup, if_neg he] at h
      exact List.mem_cons_of_mem _ (ih h)

/-- Decidable formulation of a well-shaped write input: every entry is
under a recognized key with the value kind its field expects, the secret
given as text. -/
def credWellShaped (cred : Cred) : Bool :=
  cred.all (fun kv => valShape kv.1 kv.2)

theorem credWellShaped_lookup {cred : Cred}
    (h : credWellShaped cred = true) :
    ∀ k v, credLookup cred k = some v → valShape k v = true := by
  intro k v hv
  exact List.all_eq_true.mp h (k, v) (credLookup_mem hv)

theorem mem_supported_of_valShape {k : String} {v : CredValue}
    (h : valShape k v = true) : k ∈ SUPPORTED_CREDKEYS := by
  unfold valShape at h
  split_ifs at h with h1 h2 h3 h4 h5 h6 <;>
    simp [SUPPORTED_CREDKEYS, *]

theorem decodeList_ok (arr : List CREDENTIAL) :
    decodeList (fun rec => .ok (cred_as_dict rec)) arr
      = .ok (arr.map cred_as_dict) := by
  induction arr with
  | nil => rfl
  | cons r rs ih => simp [decodeList, ih]

theorem is_generic_cred_as_dict (r : CREDENTIAL) :
    is_generic (cred_as_dict r) = decide (r.«Type» = CRED_TYPE_GENERIC) := by
  rw [is_generic,
    credLookup_cred_as_dict r "Type" (by simp [SUPPORTED_CREDKEYS])]
  simp [fieldVal]

theorem setField_preserves_blob {c c2 : CREDENTIAL} {key : String}
    {v : CredValue} (h : setField c key v = .ok c2) :
    c2.CredentialBlobSize = c.CredentialBlobSize ∧
    c2.CredentialBlob = c.CredentialBlob := by
  unfold setField at h
  split_ifs at h <;> cases v <;> first
    | (cases h; exact ⟨rfl, rfl⟩)
    | simp at h

theorem encodeFields_preserve_raw (acp : List Nat → Option (List Nat))
    (cred : Cred) :
    ∀ (keys : List String) (c r : CREDENTIAL),
      encodeFields acp keys cred c = .ok r → "CredentialBlob" ∉ keys →
      r.CredentialBlobSize = c.CredentialBlobSize ∧
      r.CredentialBlob = c.CredentialBlob := by
  intro keys
  induction keys with
  | nil =>
    intro c r h _
    simp only [encodeFields, Except.ok.injEq] at h
    rw [h]
    exact ⟨rfl, rfl⟩
  | cons key rest ih =>
    intro c r h hnb
    have hne : key ≠ "CredentialBlob" :=
      fun he => hnb (he ▸ List.mem_cons_self key rest)
    have hnb2 : "CredentialBlob" ∉ rest :=
      fun hm => hnb (List.mem_cons_of_mem key hm)
    cases hl : credLookup cred key with
    | none =>
      simp only [encodeFields, hl] at h
      exact ih c r h hnb2
    | some v =>
      simp only [encodeFields, hl] at h
      rw [if_neg hne] at h
      cases hs : setField c key v with
      | error e => rw [hs] at h; cases h
      | ok c2 =>
        rw [hs] at h
        obtain ⟨h1, h2⟩ := ih c2 r h hnb2
        obtain ⟨h3, h4⟩ := setField_preserves_blob hs
        exact ⟨h1.trans h3, h2.trans h4⟩

theorem encodeFields_blob_raw (acp : List Nat → Option (List Nat))
    (cred : Cred) :
    ∀ (keys : List String) (c r : CREDENTIAL),
      encodeFields acp keys cred c = .ok r → keys.Nodup →
      "CredentialBlob" ∈ keys →
      ∀ v, credLookup cred "CredentialBlob" = some v →
      ∃ s, make_blob acp v = .ok s ∧
        r.CredentialBlobSize = (utf16leBytes s).length ∧
        r.CredentialBlob = utf16leBytes s ++ [0, 0] := by
  intro keys
  induction keys with
  | nil =>
    intro c r _ _ hmem
    cases hmem
  | cons key rest ih =>
    intro c r h hnd hmem v hv
    have hnd2 : rest.Nodup := (List.nodup_cons.mp hnd).2
    rcases List.mem_cons.mp hmem with he | hmem2
    · subst he
      simp only [encodeFields, hv, if_true] at h
      cases hm : make_blob acp v with
      | error e => rw [hm] at h; cases h
      | ok s =>
        rw [hm] at h
        have hnotin : "CredentialBlob" ∉ rest := (List.nodup_cons.mp hnd).1
        obtain ⟨h1, h2⟩ := encodeFields_preserve_raw acp cred rest _ r h hnotin
        refine ⟨s, rfl, ?_, ?_⟩
        · rw [h1, setBlob_blobSize]
        · rw [h2, setBlob_blob]
    · cases hl : credLookup cred key with
      | none =>
        simp only [encodeFields, hl] at h
        exact ih c r h hnd2 hmem2 v hv
      | some w =>
        simp only [encodeFields, hl] at h
        by_cases hb : key = "CredentialBlob"
        · subst hb
          rw [if_pos rfl] at h
          rw [hv] at hl
          cases hl
          cases hm : make_blob acp v with
          | error e => rw [hm] at h; cases h
          | ok s =>
            rw [hm] at h
            have hnotin : "CredentialBlob" ∉ rest := (List.nodup_cons.mp hnd).1
            obtain ⟨h1, h2⟩ :=
              encodeFields_preserve_raw acp cred rest _ r h hnotin
            refine ⟨s, rfl, ?_, ?_⟩
            · rw [h1, setBlob_blobSize]
            · rw [h2, setBlob_blob]
        · rw [if_neg hb] at h
          cases hs : setField c key w with
          | error e => rw [hs] at h; cases h
          | ok c2 =>
            rw [hs] at h
            exact ih c2 r h hnd2 hmem2 v hv

theorem encodeFields_blob_error (acp : List Nat → Option (List Nat))
    (cred : Cred) (b : List Nat)
    (hnb : ∀ k v, credLookup cred k = some v → k ≠ "CredentialBlob" →
      valShape k v = true)
    (hblob : credLookup cred "CredentialBlob" = some (.bytes b))
    (hacp : acp b = none) :
    ∀ (keys : List String) (c : CREDENTIAL), "CredentialBlob" ∈ keys →
      encodeFields acp keys cred c = .error .unicodeDecodeError := by
  intro keys
  induction keys with
  | nil =>
    intro c hmem
    cases hmem
  | cons key rest ih =>
    intro c hmem
    by_cases hb : key = "CredentialBlob"
    · subst hb
      simp only [encodeFields, hblob, if_true]
      simp [make_blob, hacp]
    · have hmem2 : "CredentialBlob" ∈ rest := by
        rcases List.mem_cons.mp hmem with he | hm
        · exact absurd he.symm hb
        · exact hm
      cases hl : credLookup cred key with
      | none =>
        simp only [encodeFields, hl]
        exact ih c hmem2
      | some v =>
        simp only [encodeFields, hl]
        rw [if_neg hb]
        obtain ⟨c2, hc2⟩ :=
          setField_ok_of_valShape (hnb key v hl hb) hb c
        rw [hc2]
        exact ih c2 hmem2

/-! Lemmas about the unsupported-key computation of CredWrite. -/

theorem mem_unsupportedOf {cred : Cred} {k : String}
    (hk : k ∈ credKeys cred) (hbad : k ∉ SUPPORTED_CREDKEYS) :
    k ∈ unsupportedOf cred := by
  simp [unsupportedOf, List.mem_filter, hk, hbad]

theorem mem_unsupportedOf_iff (cred : Cred) (k : String) :
    k ∈ unsupportedOf cred ↔
      k ∈ credKeys cred ∧ k ∉ SUPPORTED_CREDKEYS := by
  simp [unsupportedOf, List.mem_filter]

theorem unsupportedOf_eq_nil {cred : Cred}
    (h : ∀ k ∈ credKeys cred, k ∈ SUPPORTED_CREDKEYS) :
    unsupportedOf cred = [] := by
  rcases he : unsupportedOf cred with _ | ⟨k, rest⟩
  · rfl
  · have hk : k ∈ unsupportedOf cred := by rw [he]; exact List.mem_cons_self _ _
    rw [mem_unsupportedOf_iff] at hk
    exact absurd (h k hk.1) hk.2

theorem credLookup_isSome_of_mem {cred : Cred} {k : String}
    (hk : k ∈ credKeys cred) : ∃ v, credLookup cred k = some v := by
  induction cred with
  | nil => cases hk
  | cons kv rest ih =>
    obtain ⟨k0, v0⟩ := kv
    by_cases he : k0 = k
    · subst he
      exact ⟨v0, by simp [credLookup]⟩
    · rcases List.mem_cons.mp hk with he2 | hm
      · exact absurd he2.symm he
      · obtain ⟨v, hv⟩ := ih hm
        exact ⟨v, by simp [credLookup, he, hv]⟩

/-- Decidable formulation of a write input whose non-blob entries are
well shaped (the blob entry may be text or bytes). -/
def credShapedExceptBlob (cred : Cred) : Bool :=
  cred.all (fun kv =>
    if kv.1 = "CredentialBlob" then true else valShape kv.1 kv.2)

theorem credShapedExceptBlob_lookup {cred : Cred}
    (h : credShapedExceptBlob cred = true) :
    ∀ k v, credLookup cred k = some v → k ≠ "CredentialBlob" →
      valShape k v = true := by
  intro k v hv hne
  have := List.all_eq_true.mp h (k, v) (credLookup_mem hv)
  simpa [hne] using this

theorem unsupportedOf_eq_nil_of_shaped {cred : Cred}
    (h : credShapedExceptBlob cred = true) : unsupportedOf cred = [] := by
  apply unsupportedOf_eq_nil
  intro k hk
  obtain ⟨v, hv⟩ := credLookup_isSome_of_mem hk
  by_cases hb : k = "CredentialBlob"
  · subst hb
    simp [SUPPORTED_CREDKEYS]
  · exact mem_supported_of_valShape (credShapedExceptBlob_lookup h k v hv hb)

/-! Claim theorems. -/

/-- C1: Codec round-trip. For every credential mapping whose entries all
lie under the recognized keys with the value kind each field expects (the
secret given as text), encoding into the native record succeeds, and
decoding that record reproduces every field of the mapping unchanged,
except that CredentialBlob comes back as the UTF-16LE byte sequence of
the original secret text, byte for byte, with no trailing terminator
included. -/
theorem c1_codec_roundtrip (acp : List Nat → Option (List Nat))
    (cred : Cred) (hsh : credWellShaped cred = true) :
    ∃ r, encodeFields acp SUPPORTED_CREDKEYS cred zeroCred = .ok r ∧
      ∀ k v, credLookup cred k = some v →
        credLookup (cred_as_dict r) k = some (roundTripVal k v) := by
  have hall := credWellShaped_lookup hsh
  obtain ⟨r, hr⟩ := encodeFields_ok acp cred hall SUPPORTED_CREDKEYS zeroCred
  refine ⟨r, hr, ?_⟩
  intro k v hv
  have hvs := hall k v hv
  have hksup : k ∈ SUPPORTED_CREDKEYS := mem_supported_of_valShape hvs
  have hnd : SUPPORTED_CREDKEYS.Nodup := by decide
  have hset := encodeFields_sets acp cred SUPPORTED_CREDKEYS zeroCred r hr hnd
    k hksup v hv
  rw [credLookup_cred_as_dict r k hksup]
  by_cases hb : k = "CredentialBlob"
  · subst hb
    obtain ⟨s, hs, hf⟩ := hset.1 rfl
    cases v with
    | str s0 =>
      simp only [make_blob, Except.ok.injEq] at hs
      subst hs
      rw [hf]
      simp [roundTripVal]
    | int n => simp [valShape] at hvs
    | bytes b => simp [valShape] at hvs
  · rw [hset.2 hb]
    simp [roundTripVal, hb]

/-- Witness for C1 at a concrete credential. -/
theorem c1_codec_roundtrip_witness :
    credWellShaped
      [("UserName", CredValue.str [117]),
       ("CredentialBlob", CredValue.str [112, 0x10437]),
       ("Type", CredValue.int 1)] = true ∧
    ∃ r, encodeFields (fun _ => none) SUPPORTED_CREDKEYS
        [("UserName", CredValue.str [117]),
         ("CredentialBlob", CredValue.str [112, 0x10437]),
         ("Type", CredValue.int 1)] zeroCred = .ok r ∧
      ∀ k v, credLookup
          [("UserName", CredValue.str [117]),
           ("CredentialBlob", CredValue.str [112, 0x10437]),
           ("Type", CredValue.int 1)] k = some v →
        credLookup (cred_as_dict r) k = some (roundTripVal k v) :=
  ⟨by decide, c1_codec_roundtrip (fun _ => none) _ (by decide)⟩

/-- C2: blob encoding rule. A text secret is encoded directly to
UTF-16LE, and the CredentialBlobSize written into the native record is
the exact byte length of that encoding with no trailing terminator
(2 * character count for text inside the basic multilingual plane). A
byte secret is first decoded to text with the current system code page,
strictly — a decode failure aborts the whole write call with the decode
error and the native write primitive is never reached — and on success
that text is encoded to UTF-16LE. -/
theorem c2_blob_encoding_rule (acp : List Nat → Option (List Nat))
    (cred : Cred) (hsh : credShapedExceptBlob cred = true) :
    (∀ s r, credLookup cred "CredentialBlob" = some (.str s) →
      encodeFields acp SUPPORTED_CREDKEYS cred zeroCred = .ok r →
        r.CredentialBlobSize = (utf16leBytes s).length ∧
        r.CredentialBlob.take r.CredentialBlobSize = utf16leBytes s ∧
        ((∀ cp ∈ s, cp < 0x10000) → r.CredentialBlobSize = 2 * s.length)) ∧
    (∀ b t r, credLookup cred "CredentialBlob" = some (.bytes b) →
      acp b = some t →
      encodeFields acp SUPPORTED_CREDKEYS cred zeroCred = .ok r →
        r.CredentialBlobSize = (utf16leBytes t).length ∧
        r.CredentialBlob.take r.CredentialBlobSize = utf16leBytes t) ∧
    (∀ b nw, credLookup cred "CredentialBlob" = some (.bytes b) →
      acp b = none →
      CredWrite acp nw cred 0 =
        { result := .error .unicodeDecodeError, written := [] }) := by
  have hnd : SUPPORTED_CREDKEYS.Nodup := by decide
  have hbm : "CredentialBlob" ∈ SUPPORTED_CREDKEYS := by decide
  refine ⟨?_, ?_, ?_⟩
  · intro s r hv hr
    obtain ⟨s0, hm, h1, h2⟩ :=
      encodeFields_blob_raw acp cred SUPPORTED_CREDKEYS zeroCred r hr hnd
        hbm _ hv
    simp only [make_blob, Except.ok.injEq] at hm
    subst hm
    refine ⟨h1, ?_, ?_⟩
    · rw [h1, h2]
      exact List.take_left _ _
    · intro hbmp
      rw [h1, utf16leBytes, unitsToBytes_length,
        utf16CodeUnits_length_bmp s hbmp]
  · intro b t r hv hacp hr
    obtain ⟨s0, hm, h1, h2⟩ :=
      encodeFields_blob_raw acp cred SUPPORTED_CREDKEYS zeroCred r hr hnd
        hbm _ hv
    simp only [make_blob, hacp, Except.ok.injEq] at hm
    subst hm
    refine ⟨h1, ?_⟩
    rw [h1, h2]
    exact List.take_left _ _
  · intro b nw hv hacp
    have h0 : unsupportedOf cred = [] := unsupportedOf_eq_nil_of_shaped hsh
    have henc : encodeFields acp SUPPORTED_CREDKEYS cred zeroCred
        = .error .unicodeDecodeError :=
      encodeFields_blob_error acp cred b (credShapedExceptBlob_lookup hsh)
        hv hacp SUPPORTED_CREDKEYS zeroCred hbm
    unfold CredWrite
    rw [h0]
    simp [henc]

/-- Witness for C2 at concrete secrets: a two-character BMP text secret,
a byte secret a concrete code-page decoder maps to text, and a byte
secret the decoder rejects. -/
theorem c2_blob_encoding_rule_witness :
    (credShapedExceptBlob [("CredentialBlob", CredValue.str [112, 97])]
        = true ∧
      ∀ r, encodeFields (fun _ => none) SUPPORTED_CREDKEYS
          [("CredentialBlob", CredValue.str [112, 97])] zeroCred = .ok r →
        r.CredentialBlobSize = (utf16leBytes [112, 97]).length ∧
        r.CredentialBlob.take r.CredentialBlobSize
          = utf16leBytes [112, 97] ∧
        ((∀ cp ∈ [112, 97], cp < 0x10000) →
          r.CredentialBlobSize = 2 * [112, 97].length)) ∧
    (credShapedExceptBlob [("CredentialBlob", CredValue.bytes [200])]
        = true ∧
      ∀ r, encodeFields (fun _ => some [252]) SUPPORTED_CREDKEYS
          [("CredentialBlob", CredValue.bytes [200])] zeroCred = .ok r →
        r.CredentialBlobSize = (utf16leBytes [252]).length ∧
        r.CredentialBlob.take r.CredentialBlobSize = utf16leBytes [252]) ∧
    CredWrite (fun _ => none) (fun _ => .ok ())
        [("CredentialBlob", CredValue.bytes [200])] 0 =
      { result := .error .unicodeDecodeError, written := [] } := by
  refine ⟨⟨by decide, ?_⟩, ⟨by decide, ?_⟩, ?_⟩
  · intro r hr
    exact (c2_blob_encoding_rule (fun _ => none) _ (by decide)).1
      [112, 97] r (by decide) hr
  · intro r hr
    exact (c2_blob_encoding_rule (fun _ => some [252]) _ (by decide)).2.1
      [200] [252] r (by decide) rfl hr
  · exact (c2_blob_encoding_rule (fun _ => none) _ (by decide)).2.2
      [200] (fun _ => .ok ()) (by decide) rfl

/-- C3: guaranteed release on decode failure. For every read or
enumerate call whose native primitive succeeds, CredFree runs exactly
once — also when the decoder raises partway — and the error the caller
sees is the decoder's error (the free step itself cannot mask it). -/
theorem c3_release_exactly_once (dec : CREDENTIAL → Except PyErr Cred) :
    (∀ (T : List Nat) (rec : CREDENTIAL),
      (CredReadWith T CRED_TYPE_GENERIC (.ok rec) dec).frees = 1 ∧
      ∀ e, dec rec = .error e →
        (CredReadWith T CRED_TYPE_GENERIC (.ok rec) dec).result
          = .error e) ∧
    (∀ (F : Option (List Nat)) (fl : Int) (arr : List CREDENTIAL),
      (CredEnumerateWith F fl (.ok arr) dec).frees = 1 ∧
      ∀ e, decodeList dec arr = .error e →
        (CredEnumerateWith F fl (.ok arr) dec).result = .error e) := by
  constructor
  · intro T rec
    constructor
    · simp [CredReadWith, tryFinallyFree]
    · intro e he
      simp [CredReadWith, tryFinallyFree, he]
  · intro F fl arr
    constructor
    · cases hd : decodeList dec arr <;>
        simp [CredEnumerateWith, tryFinallyFree, hd]
    · intro e he
      simp [CredEnumerateWith, tryFinallyFree, he]

/-- Witness for C3 with a decoder that always raises. -/
theorem c3_release_exactly_once_witness :
    (CredReadWith [] CRED_TYPE_GENERIC (.ok zeroCred)
        (fun _ => .error .ctypesTypeError)).frees = 1 ∧
    (CredReadWith [] CRED_TYPE_GENERIC (.ok zeroCred)
        (fun _ => .error .ctypesTypeError)).result
      = .error .ctypesTypeError ∧
    (CredEnumerateWith none 0 (.ok [zeroCred])
        (fun _ => .error .ctypesTypeError)).frees = 1 ∧
    (CredEnumerateWith none 0 (.ok [zeroCred])
        (fun _ => .error .ctypesTypeError)).result
      = .error .ctypesTypeError := by
  have h := c3_release_exactly_once (fun _ => .error .ctypesTypeError)
  exact ⟨(h.1 [] zeroCred).1, (h.1 [] zeroCred).2 _ rfl,
    (h.2 none 0 [zeroCred]).1, (h.2 none 0 [zeroCred]).2 _ (by decide)⟩

/-- C4: enumeration filtering and order. For every native enumerate
result, CredEnumerate decodes all records, frees once, and returns
exactly the decoded entries whose Type is the generic tag, in native
array order: the filtering happens in this layer, after decoding. -/
theorem c4_enumerate_filters_generic (F : Option (List Nat)) (fl : Int)
    (arr : List CREDENTIAL) :
    CredEnumerate F fl (.ok arr) =
      { result := .ok ((arr.map cred_as_dict).filter is_generic),
        nativeCalls := 1, frees := 1 } ∧
    (arr.map cred_as_dict).filter is_generic
      = (arr.filter
          (fun rec => decide (rec.«Type» = CRED_TYPE_GENERIC))).map
          cred_as_dict := by
  constructor
  · simp [CredEnumerate, CredEnumerateWith, tryFinallyFree, decodeList_ok]
  · rw [List.filter_map]
    have hfun : (is_generic ∘ cred_as_dict)
        = fun rec => decide (rec.«Type» = CRED_TYPE_GENERIC) :=
      funext fun rec => is_generic_cred_as_dict rec
    rw [hfun]

/-- C5: write key validation. A write call whose credential has any key
outside the recognized set fails with the ValueError carrying exactly
the offending keys, and no native primitive is invoked. -/
theorem c5_write_rejects_unsupported_keys
    (acp : List Nat → Option (List Nat))
    (nw : CREDENTIAL → Except Nat Unit) (cred : Cred) (flag : Int)
    (k : String) (hk : k ∈ credKeys cred)
    (hbad : k ∉ SUPPORTED_CREDKEYS) :
    CredWrite acp nw cred flag =
      { result := .error (.unsupportedKeysError (unsupportedOf cred)),
        written := [] } ∧
    k ∈ unsupportedOf cred ∧
    ∀ k2, k2 ∈ unsupportedOf cred ↔
      (k2 ∈ credKeys cred ∧ k2 ∉ SUPPORTED_CREDKEYS) := by
  have hkmem : k ∈ unsupportedOf cred := mem_unsupportedOf hk hbad
  have hne : unsupportedOf cred ≠ [] := by
    intro h0
    rw [h0] at hkmem
    cases hkmem
  refine ⟨?_, hkmem, fun k2 => mem_unsupportedOf_iff cred k2⟩
  unfold CredWrite
  rw [if_pos hne]

/-- Witness for C5 at a concrete credential with the foreign key Bogus. -/
theorem c5_write_rejects_unsupported_keys_witness :
    "Bogus" ∈ credKeys [("Bogus", CredValue.int 1),
      ("TargetName", CredValue.str [97])] ∧
    "Bogus" ∉ SUPPORTED_CREDKEYS ∧
    CredWrite (fun _ => none) (fun _ => .ok ())
        [("Bogus", CredValue.int 1), ("TargetName", CredValue.str [97])]
        0 =
      { result := .error (.unsupportedKeysError
          (unsupportedOf [("Bogus", CredValue.int 1),
            ("TargetName", CredValue.str [97])])),
        written := [] } ∧
    "Bogus" ∈ unsupportedOf [("Bogus", CredValue.int 1),
      ("TargetName", CredValue.str [97])] :=
  ⟨by decide, by decide,
    (c5_write_rejects_unsupported_keys (fun _ => none) (fun _ => .ok ())
      _ 0 "Bogus" (by decide) (by decide)).1,
    (c5_write_rejects_unsupported_keys (fun _ => none) (fun _ => .ok ())
      _ 0 "Bogus" (by decide) (by decide)).2.1⟩

/-- C6: unsupported write flag. A write call whose credential has only
recognized keys but whose flag is nonzero fails with the flag
ValueError, and the native write primitive is never called. -/
theorem c6_write_rejects_nonzero_flag (acp : List Nat → Option (List Nat))
    (nw : CREDENTIAL → Except Nat Unit) (cred : Cred) (flag : Int)
    (hkeys : ∀ k ∈ credKeys cred, k ∈ SUPPORTED_CREDKEYS)
    (hflag : flag ≠ 0) :
    CredWrite acp nw cred flag =
      { result := .error .flagNotSupported, written := [] } := by
  have h0 : unsupportedOf cred = [] := unsupportedOf_eq_nil hkeys
  unfold CredWrite
  rw [h0]
  simp [hflag]

/-- Witness for C6 at flag 1. -/
theorem c6_write_rejects_nonzero_flag_witness :
    (∀ k ∈ credKeys [("TargetName", CredValue.str [97])],
      k ∈ SUPPORTED_CREDKEYS) ∧
    (1 : Int) ≠ 0 ∧
    CredWrite (fun _ => none) (fun _ => .ok ())
        [("TargetName", CredValue.str [97])] 1 =
      { result := .error .flagNotSupported, written := [] } :=
  ⟨by decide, by decide,
    c6_write_rejects_nonzero_flag (fun _ => none) (fun _ => .ok ())
      _ 1 (by decide) (by decide)⟩

/-- C7: unsupported type on read and delete. For every Type value other
than the generic tag, CredRead and CredDelete fail with the ValueError
for unsupported types and the native primitives are never called. -/
theorem c7_read_delete_reject_type (T : List Nat) (ty : Int)
    (h : ty ≠ CRED_TYPE_GENERIC) :
    (∀ nr, CredRead T ty nr =
      { result := .error .typeNotSupported, nativeCalls := 0,
        frees := 0 }) ∧
    (∀ nd, CredDelete T ty nd =
      { result := .error .typeNotSupported, nativeCalls := 0,
        frees := 0 }) := by
  constructor
  · intro nr
    unfold CredRead CredReadWith
    rw [if_pos h]
  · intro nd
    unfold CredDelete
    rw [if_pos h]

/-- Witness for C7 at Type 2. -/
theorem c7_read_delete_reject_type_witness :
    (2 : Int) ≠ CRED_TYPE_GENERIC ∧
    CredRead [120] 2 (.ok zeroCred) =
      { result := .error .typeNotSupported, nativeCalls := 0,
        frees := 0 } ∧
    CredDelete [120] 2 (.ok ()) =
      { result := .error .typeNotSupported, nativeCalls := 0,
        frees := 0 } :=
  ⟨by decide,
    (c7_read_delete_reject_type [120] 2 (by decide)).1 (.ok zeroCred),
    (c7_read_delete_reject_type [120] 2 (by decide)).2 (.ok ())⟩

/-- C8: result completeness. Every credential mapping decoded from a
native record — as returned by CredRead and as produced for each element
during CredEnumerate — contains all six recognized keys, and its
CredentialBlob entry holds exactly CredentialBlobSize bytes copied from
the native blob buffer, kept as an opaque byte sequence. -/
theorem c8_result_complete (rec : CREDENTIAL) :
    credKeys (cred_as_dict rec) = SUPPORTED_CREDKEYS ∧
    credLookup (cred_as_dict rec) "CredentialBlob"
      = some (.bytes (rec.CredentialBlob.take rec.CredentialBlobSize)) ∧
    (rec.CredentialBlobSize ≤ rec.CredentialBlob.length →
      (rec.CredentialBlob.take rec.CredentialBlobSize).length
        = rec.CredentialBlobSize) ∧
    (∀ T : List Nat,
      (CredRead T CRED_TYPE_GENERIC (.ok rec)).result
        = .ok (cred_as_dict rec)) ∧
    (∀ (F : Option (List Nat)) (fl : Int) (arr : List CREDENTIAL)
        (cs : List Cred),
      (CredEnumerate F fl (.ok arr)).result = .ok cs →
      ∀ c ∈ cs, ∃ rec2 ∈ arr, c = cred_as_dict rec2) := by
  refine ⟨?_, ?_, ?_, ?_, ?_⟩
  · simp [credKeys, cred_as_dict, SUPPORTED_CREDKEYS]
  · rw [credLookup_cred_as_dict rec "CredentialBlob" (by decide)]
    simp [fieldVal]
  · intro hle
    rw [List.length_take]
    omega
  · intro T
    simp [CredRead, CredReadWith, tryFinallyFree]
  · intro F fl arr cs h c hc
    simp only [CredEnumerate, CredEnumerateWith, tryFinallyFree,
      decodeList_ok, Except.ok.injEq] at h
    subst h
    obtain ⟨hcm, _⟩ := List.mem_filter.mp hc
    obtain ⟨rec2, hrec2, heq⟩ := List.mem_map.mp hcm
    exact ⟨rec2, hrec2, heq.symm⟩

/-- Witness for C8 at a concrete record with a 3-byte buffer and a
declared size of 2. -/
theorem c8_result_complete_witness :
    credKeys (cred_as_dict (CREDENTIAL.mk 1 [] 0 [] [] 2 [5, 6, 7]))
      = SUPPORTED_CREDKEYS ∧
    credLookup (cred_as_dict (CREDENTIAL.mk 1 [] 0 [] [] 2 [5, 6, 7]))
        "CredentialBlob"
      = some (.bytes [5, 6]) ∧
    ([5, 6, 7].take 2).length = 2 ∧
    (CredRead [120] CRED_TYPE_GENERIC
        (.ok (CREDENTIAL.mk 1 [] 0 [] [] 2 [5, 6, 7]))).result
      = .ok (cred_as_dict (CREDENTIAL.mk 1 [] 0 [] [] 2 [5, 6, 7])) ∧
    ∃ rec2 ∈ [CREDENTIAL.mk 1 [] 0 [] [] 2 [5, 6, 7]],
      cred_as_dict (CREDENTIAL.mk 1 [] 0 [] [] 2 [5, 6, 7])
        = cred_as_dict rec2 := by
  have h := c8_result_complete (CREDENTIAL.mk 1 [] 0 [] [] 2 [5, 6, 7])
  refine ⟨h.1, ?_, h.2.2.1 (by decide), h.2.2.2.1 [120], ?_⟩
  · rw [h.2.1]
    decide
  · exact h.2.2.2.2 none 0 [CREDENTIAL.mk 1 [] 0 [] [] 2 [5, 6, 7]]
      [cred_as_dict (CREDENTIAL.mk 1 [] 0 [] [] 2 [5, 6, 7])] (by decide)
      (cred_as_dict (CREDENTIAL.mk 1 [] 0 [] [] 2 [5, 6, 7])) (by decide)

/-- C9: write zero-initialization. On a write call that passes
validation, the record handed to the native write primitive is built by
encoding the credential into the fully zeroed record buffer, so every
recognized field the credential does not mention still carries its
zero value when the native primitive is called. -/
theorem c9_write_zero_init (acp : List Nat → Option (List Nat))
    (nw : CREDENTIAL → Except Nat Unit) (cred : Cred) (r : CREDENTIAL)
    (hkeys : ∀ k ∈ credKeys cred, k ∈ SUPPORTED_CREDKEYS)
    (henc : encodeFields acp SUPPORTED_CREDKEYS cred zeroCred = .ok r) :
    (CredWrite acp nw cred 0).written = [r] ∧
    ∀ k, credLookup cred k = none →
      fieldVal r k = fieldVal zeroCred k := by
  constructor
  · have h0 : unsupportedOf cred = [] := unsupportedOf_eq_nil hkeys
    unfold CredWrite
    rw [h0]
    simp only [henc]
    cases nw r <;> simp
  · intro k hk
    exact encodeFields_preserve acp cred SUPPORTED_CREDKEYS zeroCred r
      henc k (.inl hk)

/-- Witness for C9 at a credential that only sets UserName: the other
fields of the written record still decode to their zero values. -/
theorem c9_write_zero_init_witness :
    (∀ k ∈ credKeys [("UserName", CredValue.str [117])],
      k ∈ SUPPORTED_CREDKEYS) ∧
    encodeFields (fun _ => none) SUPPORTED_CREDKEYS
        [("UserName", CredValue.str [117])] zeroCred
      = .ok { zeroCred with UserName := [117] } ∧
    (CredWrite (fun _ => none) (fun _ => .ok ())
        [("UserName", CredValue.str [117])] 0).written
      = [{ zeroCred with UserName := [117] }] ∧
    fieldVal { zeroCred with UserName := [117] } "Comment"
      = fieldVal zeroCred "Comment" := by
  have h := c9_write_zero_init (fun _ => none) (fun _ => .ok ())
    [("UserName", CredValue.str [117])]
    { zeroCred with UserName := [117] } (by decide) (by decide)
  exact ⟨by decide, by decide, h.1, h.2 "Comment" (by decide)⟩

/-- C10: validation ordering in write. When the credential contains a
key outside the recognized set and the flag is also nonzero, the error
raised is the unsupported-keys ValueError, not the flag ValueError: the
key check runs first. -/
theorem c10_key_check_precedes_flag_check
    (acp : List Nat → Option (List Nat))
    (nw : CREDENTIAL → Except Nat Unit) (cred : Cred) (flag : Int)
    (k : String) (hk : k ∈ credKeys cred)
    (hbad : k ∉ SUPPORTED_CREDKEYS) (hflag : flag ≠ 0) :
    (CredWrite acp nw cred flag).result
      = .error (.unsupportedKeysError (unsupportedOf cred)) ∧
    (CredWrite acp nw cred flag).result ≠ .error .flagNotSupported := by
  have hkmem : k ∈ unsupportedOf cred := mem_unsupportedOf hk hbad
  have hne : unsupportedOf cred ≠ [] := by
    intro h0
    rw [h0] at hkmem
    cases hkmem
  have hres : (CredWrite acp nw cred flag).result
      = .error (.unsupportedKeysError (unsupportedOf cred)) := by
    unfold CredWrite
    rw [if_pos hne]
  refine ⟨hres, ?_⟩
  rw [hres]
  intro habs
  simp at habs

/-- Witness for C10 at a credential with the foreign key Bogus and
flag 7. -/
theorem c10_key_check_precedes_flag_check_witness :
    "Bogus" ∈ credKeys [("Bogus", CredValue.int 1)] ∧
    "Bogus" ∉ SUPPORTED_CREDKEYS ∧
    (7 : Int) ≠ 0 ∧
    (CredWrite (fun _ => none) (fun _ => .ok ())
        [("Bogus", CredValue.int 1)] 7).result
      = .error (.unsupportedKeysError
          (unsupportedOf [("Bogus", CredValue.int 1)])) ∧
    (CredWrite (fun _ => none) (fun _ => .ok ())
        [("Bogus", CredValue.int 1)] 7).result
      ≠ .error .flagNotSupported := by
  have h := c10_key_check_precedes_flag_check (fun _ => none)
    (fun _ => .ok ()) [("Bogus", CredValue.int 1)] 7 "Bogus"
    (by decide) (by decide) (by decide)
  exact ⟨by decide, by decide, by decide, h.1, h.2⟩
